import Mathlib

/-!
Shallow embedding of the Todo Collection Store of the todo-app repository
(src/src/context/TodoContext.tsx, src/src/context/useTodos.ts,
src/src/utils/sanitize.ts and the form submit handler), together with
theorems checking the specification's claims about it.

Modelling conventions:
* TypeScript strings are embedded as `List Char` (`Str`), so that every
  operation (lowercasing, substring test, trimming, equality) is a
  structurally recursive, kernel-evaluable function.
* `createdAt` (a JS millisecond timestamp) is embedded as `Int`.
* `Array.prototype.sort(cmp)` (a stable sort w.r.t. the comparator, per the
  ECMAScript specification) is embedded as `List.insertionSort` over the
  preorder induced by the comparator: `cmp a b <= 0`.
* `Math.random()`-dependent seed data is embedded by abstracting the random
  draws as parameters (`SeedParams`).
* React state updates are embedded as explicit state-passing over
  `TodoState`; the provider's `useRef` id counter is the `nextId` field.
-/

namespace TodoApp

/-- TypeScript strings, embedded as lists of characters. -/
abbrev Str := List Char

/-- The `Priority` union type: `'low' | 'medium' | 'high'` (src/src/types/index.ts). -/
inductive Priority where
  | low
  | medium
  | high
deriving DecidableEq, Repr

/-- The `SortBy` union type: `'date' | 'priority'` (src/src/types/index.ts). -/
inductive SortBy where
  | date
  | priority
deriving DecidableEq, Repr

/-- The `Todo` record interface (src/src/types/index.ts). -/
structure Todo where
  id : Nat
  text : Str
  completed : Bool
  createdAt : Int
  priority : Priority
  tags : List Str
deriving DecidableEq, Repr

/-- The ephemeral query state held by the provider: `searchQuery`, `sortBy`,
`filterTag` (src/src/context/TodoContext.tsx, lines 28-30).  The TS type of
`filterTag` is `string | null`; `null` is embedded as `none`. -/
structure QueryState where
  searchQuery : Str
  sortBy : SortBy
  filterTag : Option Str
deriving DecidableEq, Repr

/-- JS `String.prototype.toLowerCase()`. -/
def toLowerStr (s : Str) : Str := s.map Char.toLower

/-- JS `hay.includes(needle)`: substring containment, decided via
`List.IsInfix`. -/
def includes (hay needle : Str) : Bool := decide (needle <:+: hay)

/-- The search predicate of `filteredTodos`:
`todo.text.toLowerCase().includes(searchQuery.toLowerCase())`
(src/src/context/TodoContext.tsx, line 65). -/
def matchesSearch (searchQuery : Str) (t : Todo) : Bool :=
  includes (toLowerStr t.text) (toLowerStr searchQuery)

/-- The tag predicate of `filteredTodos`:
`!filterTag || todo.tags.includes(filterTag)`
(src/src/context/TodoContext.tsx, line 66).  In JS both `null` and the
empty string are falsy, so `!filterTag` holds for `none` and for `some ""`. -/
def matchesTag (filterTag : Option Str) (t : Todo) : Bool :=
  match filterTag with
  | none => true
  | some tag => tag.isEmpty || t.tags.contains tag

/-- Whether a tag filter is active, i.e. `filterTag` is truthy in JS:
non-null and non-empty. -/
def tagFilterActive (filterTag : Option Str) : Bool :=
  match filterTag with
  | none => false
  | some tag => !tag.isEmpty

/-- The combined filter predicate of `filteredTodos`
(src/src/context/TodoContext.tsx, lines 64-68). -/
def matchesQuery (q : QueryState) (t : Todo) : Bool :=
  matchesSearch q.searchQuery t && matchesTag q.filterTag t

/-- The priority rank table `{ high: 0, medium: 1, low: 2 }`
(src/src/context/TodoContext.tsx, line 71). -/
def priorityOrder : Priority → Nat
  | .high => 0
  | .medium => 1
  | .low => 2

/-- The preorder induced by the date comparator
`(a, b) => b.createdAt - a.createdAt`: `cmp a b <= 0` iff
`b.createdAt <= a.createdAt`. -/
def dateOrder (a b : Todo) : Prop := b.createdAt ≤ a.createdAt

/-- The preorder induced by the priority comparator
`(a, b) => priorityOrder[a.priority] - priorityOrder[b.priority]`. -/
def priorityRankLe (a b : Todo) : Prop :=
  priorityOrder a.priority ≤ priorityOrder b.priority

instance : DecidableRel dateOrder := fun a b => Int.decLe b.createdAt a.createdAt

instance : DecidableRel priorityRankLe := fun a b =>
  Nat.decLe (priorityOrder a.priority) (priorityOrder b.priority)

instance : IsTotal Todo dateOrder :=
  ⟨fun a b => Int.le_total b.createdAt a.createdAt⟩

instance : IsTrans Todo dateOrder :=
  ⟨fun _ _ _ hab hbc => le_trans hbc hab⟩

instance : IsTotal Todo priorityRankLe :=
  ⟨fun a b => Nat.le_total (priorityOrder a.priority) (priorityOrder b.priority)⟩

instance : IsTrans Todo priorityRankLe :=
  ⟨fun _ _ _ hab hbc => le_trans hab hbc⟩

/-- The derived view `filteredTodos` (src/src/context/TodoContext.tsx,
lines 63-78): filter by search and tag, then sort by the mode's comparator
(`Array.prototype.sort` with a comparator is a stable sort w.r.t. the
induced preorder, embedded as `insertionSort`). -/
def filteredTodos (todos : List Todo) (q : QueryState) : List Todo :=
  let result := todos.filter (matchesQuery q)
  match q.sortBy with
  | .priority => List.insertionSort priorityRankLe result
  | .date => List.insertionSort dateOrder result

/-- The provider's collection state: the `todos` array plus the `nextIdRef`
counter (src/src/context/TodoContext.tsx, lines 24-27). -/
structure TodoState where
  todos : List Todo
  nextId : Nat
deriving DecidableEq, Repr

/-- The `addTodo` callback (src/src/context/TodoContext.tsx, lines 32-51):
reads and increments the id counter, then appends a fresh item with
`completed = false` and empty `tags`.  `Date.now()` is passed in as `now`. -/
def addTodo (s : TodoState) (text : Str) (priority : Priority) (now : Int) : TodoState :=
  { todos := s.todos ++
      [{ id := s.nextId
         text := text
         completed := false
         priority := priority
         createdAt := now
         tags := [] }]
    nextId := s.nextId + 1 }

/-- The `toggleTodo` callback (src/src/context/TodoContext.tsx, lines 53-57):
map over the collection, flipping `completed` on the item(s) whose id matches. -/
def toggleTodo (id : Nat) (todos : List Todo) : List Todo :=
  todos.map fun todo =>
    if todo.id = id then { todo with completed := !todo.completed } else todo

/-- The `deleteTodo` callback (src/src/context/TodoContext.tsx, lines 59-61):
keep the items whose id differs. -/
def deleteTodo (id : Nat) (todos : List Todo) : List Todo :=
  todos.filter fun todo => todo.id != id

/-- One user-triggered mutation of the store. -/
inductive Op where
  | add (text : Str) (priority : Priority) (now : Int)
  | toggle (id : Nat)
  | delete (id : Nat)

/-- Apply one mutation to the provider state. -/
def applyOp (s : TodoState) : Op → TodoState
  | .add text priority now => addTodo s text priority now
  | .toggle id => { s with todos := toggleTodo id s.todos }
  | .delete id => { s with todos := deleteTodo id s.todos }

/-- Run a sequence of mutations. -/
def runOps (s : TodoState) (ops : List Op) : TodoState := ops.foldl applyOp s

/-- The ids handed out by the `add` operations of a run, in order
(each `add` consumes the current `nextId`). -/
def issuedIds (s : TodoState) : List Op → List Nat
  | [] => []
  | op :: ops =>
    match op with
    | .add .. => s.nextId :: issuedIds (applyOp s op) ops
    | _ => issuedIds (applyOp s op) ops

/-- The `Math.random()` draws made by `generateInitialTodos`, abstracted as
parameters: for each index, the completed flip, the createdAt offset result,
the priority pick, and the two tag strings `tag${...}`. -/
structure SeedParams where
  completedFlip : Nat → Bool
  createdAtPick : Nat → Int
  priorityPick : Nat → Priority
  tagPick1 : Nat → Str
  tagPick2 : Nat → Str

/-- The seed data `generateInitialTodos` (src/src/context/TodoContext.tsx,
lines 5-21): 50 items with ids 1..50, and the two random tags deduplicated
(`tag1 === tag2 ? [tag1] : [tag1, tag2]`). -/
def generateInitialTodos (p : SeedParams) : List Todo :=
  (List.range 50).map fun i =>
    let tag1 := p.tagPick1 i
    let tag2 := p.tagPick2 i
    let uniqueTags := if tag1 = tag2 then [tag1] else [tag1, tag2]
    { id := i + 1
      text := "Todo item ".toList ++ Nat.toDigits 10 (i + 1)
      completed := p.completedFlip i
      createdAt := p.createdAtPick i
      priority := p.priorityPick i
      tags := uniqueTags }

/-- Provider state at instantiation: the seeded collection and
`nextIdRef.current = 51` (src/src/context/TodoContext.tsx, lines 24-27). -/
def initialState (p : SeedParams) : TodoState :=
  { todos := generateInitialTodos p, nextId := 51 }

/-- A state is reachable when it arises from some provider instantiation by
some sequence of mutations. -/
def Reachable (s : TodoState) : Prop :=
  ∃ p ops, s = runOps (initialState p) ops

/-- JS object read `acc[tag]` on the tag-count record, embedded as ordered
association-list lookup. -/
def lookupTag (tag : Str) : List (Str × Nat) → Option Nat
  | [] => none
  | (k, v) :: rest => if k = tag then some v else lookupTag tag rest

/-- JS object write `acc[tag] = (acc[tag] || 0) + 1`: update in place when
the key exists, append otherwise (JS objects keep insertion order). -/
def bump : List (Str × Nat) → Str → List (Str × Nat)
  | [], tag => [(tag, 1)]
  | (k, v) :: rest, tag =>
    if k = tag then (k, v + 1) :: rest else (k, v) :: bump rest tag

/-- The `allTags` aggregation (src/src/context/TodoContext.tsx, lines 80-90):
reduce over the full collection, bumping a counter per tag occurrence.  Its
`useMemo` dependency list is `[todos]`: it does not read the query state. -/
def allTags (todos : List Todo) : List (Str × Nat) :=
  todos.foldl (fun acc todo => todo.tags.foldl bump acc) []

/-- The `useTodos` hook (src/src/context/useTodos.ts): throws when the
context is `undefined` (no provider in scope), returns the context value
otherwise.  The throw is embedded as `Except.error`. -/
def useTodos {α : Type} (context : Option α) : Except String α :=
  match context with
  | none => Except.error "useTodos must be used within a TodoProvider"
  | some v => Except.ok v

/-- JS `String.prototype.trim()`: drop leading and trailing whitespace. -/
def trimStr (s : Str) : Str :=
  ((s.dropWhile Char.isWhitespace).reverse.dropWhile Char.isWhitespace).reverse

/-- The `sanitizeUserInput` helper (src/src/utils/sanitize.ts, lines 95-98):
`stripHtml(input.trim())`.  `stripHtml` delegates to the external DOMPurify
library, which the spec treats as an opaque pure function, so it is a
parameter here. -/
def sanitizeUserInput (stripHtml : Str → Str) (input : Str) : Str :=
  stripHtml (trimStr input)

/-- The form's `handleSubmit` (TodoForm, tested in
src/src/components/__tests__/TodoAnalytics.test.tsx, lines 89-101): sanitize
the input and call `addTodo` only when the sanitized text is truthy
(non-empty). -/
def handleSubmit (stripHtml : Str → Str) (s : TodoState) (inputValue : Str)
    (priority : Priority) (now : Int) : TodoState :=
  let sanitizedText := sanitizeUserInput stripHtml inputValue
  if sanitizedText.isEmpty then s else addTodo s sanitizedText priority now

/-! Sample concrete data used by witnesses. -/

/-- A concrete sample item (id 1, text "milk", tag "home"). -/
def sampleTodoA : Todo :=
  { id := 1, text := ['m','i','l','k'], completed := false, createdAt := 10
    priority := .high, tags := [['h','o','m','e']] }

/-- A concrete sample item (id 2, text "walk", tag "pet"). -/
def sampleTodoB : Todo :=
  { id := 2, text := ['w','a','l','k'], completed := true, createdAt := 5
    priority := .low, tags := [['p','e','t']] }

/-- A concrete choice of seed randomness. -/
def sampleSeed : SeedParams :=
  { completedFlip := fun _ => false
    createdAtPick := fun _ => 0
    priorityPick := fun _ => .low
    tagPick1 := fun _ => ['t']
    tagPick2 := fun _ => ['t'] }

/-- C10: toggling the same id twice restores every item, field for field. -/
theorem toggle_involution (todos : List Todo) (id : Nat) :
    toggleTodo id (toggleTodo id todos) = todos := by
  unfold toggleTodo
  rw [List.map_map]
  have h : ∀ t ∈ todos,
      ((fun todo => if todo.id = id then { todo with completed := !todo.completed } else todo) ∘
        (fun todo => if todo.id = id then { todo with completed := !todo.completed } else todo)) t
        = t := by
    intro t _
    by_cases h : t.id = id
    · simp [h]
      rw [← h]
    · simp [h]
  exact (List.map_congr_left h).trans (List.map_id todos)

/-- C5: toggle(id) flips `completed` of exactly the item(s) at matching
positions and leaves every other field and every other item unchanged;
when no item has the id it is a no-op. -/
theorem toggle_isolation (todos : List Todo) (id : Nat) :
    (toggleTodo id todos).length = todos.length ∧
    (∀ i (h1 : i < todos.length) (h2 : i < (toggleTodo id todos).length),
      ((todos.get ⟨i, h1⟩).id = id →
        (toggleTodo id todos).get ⟨i, h2⟩ =
          { todos.get ⟨i, h1⟩ with completed := !(todos.get ⟨i, h1⟩).completed }) ∧
      ((todos.get ⟨i, h1⟩).id ≠ id →
        (toggleTodo id todos).get ⟨i, h2⟩ = todos.get ⟨i, h1⟩)) ∧
    ((∀ t ∈ todos, t.id ≠ id) → toggleTodo id todos = todos) := by
  refine ⟨List.length_map todos _, ?_, ?_⟩
  · intro i h1 h2
    constructor
    · intro hid
      simp only [List.get_eq_getElem] at hid
      simp only [toggleTodo, List.get_eq_getElem, List.getElem_map, if_pos hid]
    · intro hid
      simp only [List.get_eq_getElem] at hid
      simp only [toggleTodo, List.get_eq_getElem, List.getElem_map, if_neg hid]
  · intro hall
    have h : ∀ t ∈ todos,
        (fun todo => if todo.id = id then { todo with completed := !todo.completed } else todo) t
          = t := by
      intro t ht
      simp [hall t ht]
    unfold toggleTodo
    exact (List.map_congr_left h).trans (List.map_id todos)

/-- Witness for C5 at a concrete collection: toggling id 1 flips item A only,
and toggling an absent id is a no-op. -/
theorem toggle_isolation_witness :
    (toggleTodo 1 [sampleTodoA, sampleTodoB]).length = [sampleTodoA, sampleTodoB].length ∧
    (toggleTodo 1 [sampleTodoA, sampleTodoB]).get ⟨0, by decide⟩ =
      { sampleTodoA with completed := !sampleTodoA.completed } ∧
    (toggleTodo 1 [sampleTodoA, sampleTodoB]).get ⟨1, by decide⟩ = sampleTodoB ∧
    toggleTodo 99 [sampleTodoA, sampleTodoB] = [sampleTodoA, sampleTodoB] := by
  refine ⟨(toggle_isolation [sampleTodoA, sampleTodoB] 1).1, ?_, ?_, ?_⟩
  · exact ((toggle_isolation [sampleTodoA, sampleTodoB] 1).2.1 0 (by decide) (by decide)).1
      (by decide)
  · exact ((toggle_isolation [sampleTodoA, sampleTodoB] 1).2.1 1 (by decide) (by decide)).2
      (by decide)
  · exact (toggle_isolation [sampleTodoA, sampleTodoB] 99).2.2 (by decide)

/-- C8: the accessor hook raises the descriptive error when no provider is
in scope (context undefined) and otherwise returns the context value, never
a degraded default. -/
theorem useTodos_error_outside_provider :
    (∀ (α : Type), useTodos (none : Option α) =
        Except.error "useTodos must be used within a TodoProvider") ∧
    (∀ (α : Type) (v : α), useTodos (some v) = Except.ok v) :=
  ⟨fun _ => rfl, fun _ _ => rfl⟩

/-- C4: when sanitization (trim, then HTML stripping by the external
sanitizer) yields the empty string, the submit path creates no item and
leaves the whole state unchanged. -/
theorem add_empty_sanitized_noop (stripHtml : Str → Str) (s : TodoState)
    (inputValue : Str) (priority : Priority) (now : Int)
    (h : sanitizeUserInput stripHtml inputValue = []) :
    handleSubmit stripHtml s inputValue priority now = s := by
  simp [handleSubmit, h]

/-- Witness for C4: whitespace-only input (with a pass-through sanitizer)
trims to empty and the submit is a no-op. -/
theorem add_empty_sanitized_noop_witness :
    sanitizeUserInput (fun s => s) [' '] = [] ∧
    handleSubmit (fun s => s) { todos := [sampleTodoA], nextId := 2 } [' '] Priority.low 0 =
      { todos := [sampleTodoA], nextId := 2 } :=
  ⟨by decide, add_empty_sanitized_noop (fun s => s) _ [' '] Priority.low 0 (by decide)⟩

/-- The sorting stage of `filteredTodos` permutes its input. -/
theorem filteredTodos_perm (todos : List Todo) (q : QueryState) :
    (filteredTodos todos q).Perm (todos.filter (matchesQuery q)) := by
  unfold filteredTodos
  cases q.sortBy
  · exact List.perm_insertionSort dateOrder _
  · exact List.perm_insertionSort priorityRankLe _

/-- When the query predicate holds and a tag filter is active (truthy),
the item carries the filter tag. -/
theorem matchesQuery_tag (q : QueryState) (t : Todo) (hq : matchesQuery q t = true)
    (hact : tagFilterActive q.filterTag = true) :
    ∀ tag, q.filterTag = some tag → t.tags.contains tag = true := by
  intro tag htag
  rw [matchesQuery, Bool.and_eq_true] at hq
  have htg : matchesTag q.filterTag t = true := hq.2
  rw [htag] at htg hact
  simp only [matchesTag, Bool.or_eq_true] at htg
  simp only [tagFilterActive, Bool.not_eq_true'] at hact
  rcases htg with h | h
  · rw [h] at hact
    cases hact
  · exact h

/-- C1: every item of the derived view is an item of the backing collection
satisfying the search predicate (and the tag predicate when a filter is
active); every item of the collection satisfying the combined predicate
appears in the view, with multiplicity equal to its multiplicity among the
matching items — exactly once when ids are distinct. -/
theorem filter_correctness (todos : List Todo) (q : QueryState) :
    (∀ t ∈ filteredTodos todos q,
      t ∈ todos ∧ matchesSearch q.searchQuery t = true ∧
      (tagFilterActive q.filterTag = true →
        ∀ tag, q.filterTag = some tag → t.tags.contains tag = true)) ∧
    (∀ t ∈ todos, matchesQuery q t = true → t ∈ filteredTodos todos q) ∧
    (∀ t : Todo, List.count t (filteredTodos todos q) =
      List.count t (todos.filter (matchesQuery q))) ∧
    ((todos.map Todo.id).Nodup →
      ∀ t ∈ todos, matchesQuery q t = true →
        List.count t (filteredTodos todos q) = 1) := by
  have hperm := filteredTodos_perm todos q
  refine ⟨?_, ?_, fun t => hperm.count_eq t, ?_⟩
  · intro t ht
    have htf := List.mem_filter.mp (hperm.mem_iff.mp ht)
    have hs : matchesSearch q.searchQuery t = true := by
      have h2 := htf.2
      rw [matchesQuery, Bool.and_eq_true] at h2
      exact h2.1
    exact ⟨htf.1, hs, matchesQuery_tag q t htf.2⟩
  · intro t ht hmq
    exact hperm.mem_iff.mpr (List.mem_filter.mpr ⟨ht, hmq⟩)
  · intro hnd t ht hmq
    rw [hperm.count_eq, List.count_filter hmq]
    exact List.count_eq_one_of_mem (List.Nodup.of_map Todo.id hnd) ht

/-- Witness for C1: with search "al" and tag filter "pet", the view on the
sample collection contains item B (which matches and carries the tag)
exactly once, and item B is reported present by the completeness direction. -/
theorem filter_correctness_witness :
    sampleTodoB ∈ [sampleTodoA, sampleTodoB] ∧
    matchesSearch ['a','l'] sampleTodoB = true ∧
    sampleTodoB.tags.contains ['p','e','t'] = true ∧
    sampleTodoB ∈ filteredTodos [sampleTodoA, sampleTodoB]
      { searchQuery := ['a','l'], sortBy := .date, filterTag := some ['p','e','t'] } ∧
    List.count sampleTodoB (filteredTodos [sampleTodoA, sampleTodoB]
      { searchQuery := ['a','l'], sortBy := .date, filterTag := some ['p','e','t'] }) = 1 := by
  have h := filter_correctness [sampleTodoA, sampleTodoB]
    { searchQuery := ['a','l'], sortBy := .date, filterTag := some ['p','e','t'] }
  have hmem := h.2.1 sampleTodoB (by decide) (by decide)
  have hall := h.1 sampleTodoB hmem
  exact ⟨hall.1, hall.2.1, hall.2.2 (by decide) ['p','e','t'] rfl, hmem,
    h.2.2.2 (by decide) sampleTodoB (by decide) (by decide)⟩

/-- C2: the derived view is sorted per the active mode — non-increasing
`createdAt` under "date", non-decreasing priority rank (high=0, medium=1,
low=2) between consecutive entries under "priority". -/
theorem sort_correctness (todos : List Todo) (q : QueryState) :
    (q.sortBy = SortBy.date →
      (filteredTodos todos q).Chain' (fun a b => b.createdAt ≤ a.createdAt)) ∧
    (q.sortBy = SortBy.priority →
      (filteredTodos todos q).Chain' (fun a b =>
        priorityOrder a.priority ≤ priorityOrder b.priority)) := by
  constructor
  · intro h
    unfold filteredTodos
    rw [h]
    exact (List.sorted_insertionSort dateOrder _).chain'
  · intro h
    unfold filteredTodos
    rw [h]
    exact (List.sorted_insertionSort priorityRankLe _).chain'

/-- Witness for C2 at the sample collection, in both sort modes. -/
theorem sort_correctness_witness :
    (filteredTodos [sampleTodoA, sampleTodoB]
      { searchQuery := [], sortBy := .date, filterTag := none }).Chain'
        (fun a b => b.createdAt ≤ a.createdAt) ∧
    (filteredTodos [sampleTodoA, sampleTodoB]
      { searchQuery := [], sortBy := .priority, filterTag := none }).Chain'
        (fun a b => priorityOrder a.priority ≤ priorityOrder b.priority) :=
  ⟨(sort_correctness [sampleTodoA, sampleTodoB]
      { searchQuery := [], sortBy := .date, filterTag := none }).1 rfl,
    (sort_correctness [sampleTodoA, sampleTodoB]
      { searchQuery := [], sortBy := .priority, filterTag := none }).2 rfl⟩

/-- When ids are distinct and some element has the target id, filtering it
out shortens the list by exactly one. -/
theorem length_filter_ne_of_mem :
    ∀ (todos : List Todo) (id : Nat), (todos.map Todo.id).Nodup →
      (∃ t ∈ todos, t.id = id) →
      (todos.filter (fun t => t.id != id)).length + 1 = todos.length := by
  intro todos id
  induction todos with
  | nil =>
    rintro _ ⟨t, ht, _⟩
    cases ht
  | cons a l ih =>
    intro hnd hex
    rw [List.map_cons, List.nodup_cons] at hnd
    by_cases ha : a.id = id
    · have hl : l.filter (fun t => t.id != id) = l := by
        apply List.filter_eq_self.mpr
        intro b hb
        have hne : b.id ≠ id := by
          intro hb2
          apply hnd.1
          rw [ha, ← hb2]
          exact List.mem_map_of_mem Todo.id hb
        simp [hne]
      simp [List.filter_cons, ha, hl]
    · obtain ⟨t, ht, htid⟩ := hex
      have htl : t ∈ l := by
        rcases List.mem_cons.mp ht with h | h
        · exact absurd (h ▸ htid) ha
        · exact h
      have hrec := ih hnd.2 ⟨t, htl, htid⟩
      simp only [List.filter_cons, List.length_cons]
      rw [if_pos (by simp [ha])]
      simp only [List.length_cons]
      omega

/-- C6: delete(id) keeps exactly the items with a different id: no surviving
item has the deleted id, every item with a different id survives, survivors
keep their field values and relative order (sublist), exactly one item is
removed when the id is present (given distinct ids), and an absent id is a
no-op. -/
theorem delete_semantics (todos : List Todo) (id : Nat) :
    (∀ t ∈ deleteTodo id todos, t.id ≠ id) ∧
    (∀ t ∈ todos, t.id ≠ id → t ∈ deleteTodo id todos) ∧
    (deleteTodo id todos).Sublist todos ∧
    ((todos.map Todo.id).Nodup → ∀ t ∈ todos, t.id = id →
      (deleteTodo id todos).length + 1 = todos.length) ∧
    ((∀ t ∈ todos, t.id ≠ id) → deleteTodo id todos = todos) := by
  refine ⟨?_, ?_, List.filter_sublist todos, ?_, ?_⟩
  · intro t ht
    have h := (List.mem_filter.mp ht).2
    simpa using h
  · intro t ht hne
    exact List.mem_filter.mpr ⟨ht, by simp [hne]⟩
  · intro hnd t ht hid
    exact length_filter_ne_of_mem todos id hnd ⟨t, ht, hid⟩
  · intro hall
    exact List.filter_eq_self.mpr fun t ht => by simp [hall t ht]

/-- Witness for C6: deleting id 1 from the sample collection removes exactly
one item and keeps item B; deleting an absent id is a no-op. -/
theorem delete_semantics_witness :
    (deleteTodo 1 [sampleTodoA, sampleTodoB]).length + 1 =
      ([sampleTodoA, sampleTodoB] : List Todo).length ∧
    sampleTodoB ∈ deleteTodo 1 [sampleTodoA, sampleTodoB] ∧
    deleteTodo 99 [sampleTodoA, sampleTodoB] = [sampleTodoA, sampleTodoB] :=
  ⟨(delete_semantics [sampleTodoA, sampleTodoB] 1).2.2.2.1 (by decide) sampleTodoA
      (by decide) (by decide),
    (delete_semantics [sampleTodoA, sampleTodoB] 1).2.1 sampleTodoB (by decide) (by decide),
    (delete_semantics [sampleTodoA, sampleTodoB] 99).2.2.2.2 (by decide)⟩

/-- The id invariant: every stored id is below the counter, and stored ids
are pairwise distinct. -/
def IdInv (s : TodoState) : Prop :=
  (∀ t ∈ s.todos, t.id < s.nextId) ∧ (s.todos.map Todo.id).Nodup

instance : DecidablePred IdInv := fun s => by
  unfold IdInv
  infer_instance

/-- Toggling never changes the stored ids. -/
theorem toggleTodo_map_id (id : Nat) (todos : List Todo) :
    (toggleTodo id todos).map Todo.id = todos.map Todo.id := by
  unfold toggleTodo
  rw [List.map_map]
  apply List.map_congr_left
  intro t _
  by_cases h : t.id = id <;> simp [h]

/-- Every operation preserves the id invariant. -/
theorem idInv_applyOp (s : TodoState) (op : Op) (h : IdInv s) : IdInv (applyOp s op) := by
  obtain ⟨hlt, hnd⟩ := h
  cases op with
  | add text priority now =>
    constructor
    · intro t ht
      simp only [applyOp, addTodo] at ht
      rcases List.mem_append.mp ht with hm | hm
      · exact Nat.lt_succ_of_lt (hlt t hm)
      · rw [List.mem_singleton.mp hm]
        exact Nat.lt_succ_self _
    · simp only [applyOp, addTodo]
      rw [List.map_append]
      apply List.nodup_append.mpr
      refine ⟨hnd, List.nodup_singleton _, ?_⟩
      intro x hx
      obtain ⟨t, ht, rfl⟩ := List.mem_map.mp hx
      simp only [List.map_cons, List.map_nil, List.mem_singleton]
      exact Nat.ne_of_lt (hlt t ht)
  | toggle id =>
    constructor
    · intro t ht
      simp only [applyOp] at ht ⊢
      obtain ⟨u, hu, rfl⟩ := List.mem_map.mp ht
      by_cases h : u.id = id
      · simp only [h, if_pos]
        exact h ▸ hlt u hu
      · simp only [if_neg h]
        exact hlt u hu
    · simp only [applyOp]
      rw [toggleTodo_map_id]
      exact hnd
  | delete id =>
    have hsub : (deleteTodo id s.todos).Sublist s.todos := List.filter_sublist _
    constructor
    · intro t ht
      exact hlt t (hsub.subset ht)
    · exact (hsub.map Todo.id).nodup hnd

/-- Running any sequence of operations preserves the id invariant. -/
theorem idInv_runOps (s : TodoState) (ops : List Op) (h : IdInv s) :
    IdInv (runOps s ops) := by
  induction ops generalizing s with
  | nil => exact h
  | cons op ops ih => exact ih (applyOp s op) (idInv_applyOp s op h)

/-- The seeded provider state satisfies the id invariant: ids 1..50 are
distinct and below the counter value 51. -/
theorem idInv_initial (p : SeedParams) : IdInv (initialState p) := by
  constructor
  · intro t ht
    simp only [initialState, generateInitialTodos, List.mem_map, List.mem_range] at ht
    obtain ⟨i, hi, rfl⟩ := ht
    simp only [initialState]
    omega
  · have hmap : (generateInitialTodos p).map Todo.id =
        (List.range 50).map (fun i => i + 1) := by
      unfold generateInitialTodos
      rw [List.map_map]
      rfl
    simp only [initialState]
    rw [hmap]
    exact (List.nodup_range 50).map fun ha => by omega

/-- The counter never decreases across one operation. -/
theorem nextId_applyOp (s : TodoState) (op : Op) : s.nextId ≤ (applyOp s op).nextId := by
  cases op with
  | add text priority now => exact Nat.le_succ _
  | toggle id => exact Nat.le_refl _
  | delete id => exact Nat.le_refl _

/-- The counter never decreases across a run. -/
theorem nextId_runOps (s : TodoState) (ops : List Op) :
    s.nextId ≤ (runOps s ops).nextId := by
  induction ops generalizing s with
  | nil => exact Nat.le_refl _
  | cons op ops ih => exact Nat.le_trans (nextId_applyOp s op) (ih (applyOp s op))

/-- Every id issued during a run is at least the starting counter value. -/
theorem issuedIds_ge (s : TodoState) (ops : List Op) :
    ∀ i ∈ issuedIds s ops, s.nextId ≤ i := by
  induction ops generalizing s with
  | nil =>
    intro i hi
    cases hi
  | cons op ops ih =>
    intro i hi
    cases op with
    | add text priority now =>
      rcases List.mem_cons.mp hi with rfl | hm
      · exact Nat.le_refl _
      · exact Nat.le_trans (Nat.le_succ _) (ih (applyOp s (.add text priority now)) i hm)
    | toggle id =>
      simp only [issuedIds] at hi
      exact ih (applyOp s (Op.toggle id)) i hi
    | delete id =>
      simp only [issuedIds] at hi
      exact ih (applyOp s (Op.delete id)) i hi

/-- Ids issued during a run are strictly increasing in issue order. -/
theorem issuedIds_pairwise (s : TodoState) (ops : List Op) :
    (issuedIds s ops).Pairwise (· < ·) := by
  induction ops generalizing s with
  | nil => exact List.Pairwise.nil
  | cons op ops ih =>
    cases op with
    | add text priority now =>
      refine List.Pairwise.cons ?_ (ih _)
      intro i hi
      exact Nat.lt_of_succ_le (issuedIds_ge (applyOp s (.add text priority now)) ops i hi)
    | toggle id => exact ih _
    | delete id => exact ih _

/-- C3: from any reachable state, stored ids are pairwise distinct and below
the counter; the ids issued by any further sequence of adds are strictly
increasing, each exceeding every id already stored; the counter only
increases; and the resulting collection still has distinct ids (so ids are
never reused, even after deletions). -/
theorem add_id_unique_monotone (s : TodoState) (h : Reachable s) (ops : List Op) :
    IdInv s ∧
    (issuedIds s ops).Pairwise (· < ·) ∧
    (∀ i ∈ issuedIds s ops, ∀ t ∈ s.todos, t.id < i) ∧
    s.nextId ≤ (runOps s ops).nextId ∧
    ((runOps s ops).todos.map Todo.id).Nodup := by
  obtain ⟨p, ops0, rfl⟩ := h
  have hinv : IdInv (runOps (initialState p) ops0) :=
    idInv_runOps _ _ (idInv_initial p)
  refine ⟨hinv, issuedIds_pairwise _ _, ?_, nextId_runOps _ _,
    (idInv_runOps _ _ hinv).2⟩
  intro i hi t ht
  exact Nat.lt_of_lt_of_le (hinv.1 t ht) (issuedIds_ge _ _ i hi)

/-- Witness for C3: starting at a freshly seeded provider, two adds issue the
strictly increasing ids 51 and 52. -/
theorem add_id_unique_monotone_witness :
    IdInv (initialState sampleSeed) ∧
    (issuedIds (initialState sampleSeed)
      [Op.add ['x'] .low 0, Op.add ['y'] .high 0]).Pairwise (· < ·) ∧
    (initialState sampleSeed).nextId ≤
      (runOps (initialState sampleSeed) [Op.add ['x'] .low 0, Op.add ['y'] .high 0]).nextId := by
  have h := add_id_unique_monotone (initialState sampleSeed) ⟨sampleSeed, [], rfl⟩
    [Op.add ['x'] .low 0, Op.add ['y'] .high 0]
  exact ⟨h.1, h.2.1, h.2.2.2.1⟩

/-- The per-item tag invariant: no item carries a duplicate tag. -/
def TagsInv (s : TodoState) : Prop := ∀ t ∈ s.todos, t.tags.Nodup

/-- Every operation preserves the tag invariant (adds start with empty tags,
toggle keeps tags, delete only removes items). -/
theorem tagsInv_applyOp (s : TodoState) (op : Op) (h : TagsInv s) :
    TagsInv (applyOp s op) := by
  cases op with
  | add text priority now =>
    intro t ht
    simp only [applyOp, addTodo] at ht
    rcases List.mem_append.mp ht with hm | hm
    · exact h t hm
    · rw [List.mem_singleton.mp hm]
      exact List.nodup_nil
  | toggle id =>
    intro t ht
    simp only [applyOp] at ht
    obtain ⟨u, hu, rfl⟩ := List.mem_map.mp ht
    by_cases hiu : u.id = id
    · simp only [if_pos hiu]
      exact h u hu
    · simp only [if_neg hiu]
      exact h u hu
  | delete id =>
    intro t ht
    exact h t ((List.filter_sublist _).subset ht)

/-- Running any sequence of operations preserves the tag invariant. -/
theorem tagsInv_runOps (s : TodoState) (ops : List Op) (h : TagsInv s) :
    TagsInv (runOps s ops) := by
  induction ops generalizing s with
  | nil => exact h
  | cons op ops ih => exact ih (applyOp s op) (tagsInv_applyOp s op h)

/-- The seed deduplicates its two random tags, so every seeded item has
duplicate-free tags. -/
theorem tagsInv_initial (p : SeedParams) : TagsInv (initialState p) := by
  intro t ht
  simp only [initialState, generateInitialTodos, List.mem_map, List.mem_range] at ht
  obtain ⟨i, hi, rfl⟩ := ht
  dsimp only
  by_cases htag : p.tagPick1 i = p.tagPick2 i
  · simp [htag]
  · simp [htag]

/-- C9: in every reachable collection state — the seeded demo items included —
no item's tag list contains a duplicate. -/
theorem tags_nodup_reachable (s : TodoState) (h : Reachable s) :
    ∀ t ∈ s.todos, t.tags.Nodup := by
  obtain ⟨p, ops, rfl⟩ := h
  exact tagsInv_runOps _ ops (tagsInv_initial p)

/-- Witness for C9: the first seeded item of a concrete provider
instantiation has duplicate-free tags. -/
theorem tags_nodup_reachable_witness :
    ((initialState sampleSeed).todos.get ⟨0, by decide⟩).tags.Nodup :=
  tags_nodup_reachable (initialState sampleSeed) ⟨sampleSeed, [], rfl⟩ _
    (List.get_mem _ _ _)

/-- Lookup after one counter bump: the bumped key reads one higher, every
other key is untouched. -/
theorem lookupTag_bump (acc : List (Str × Nat)) (tag s : Str) :
    lookupTag s (bump acc tag) =
      if s = tag then some ((lookupTag s acc).getD 0 + 1) else lookupTag s acc := by
  induction acc with
  | nil =>
    by_cases h : s = tag
    · simp [bump, lookupTag, h]
    · simp [bump, lookupTag, h, Ne.symm h]
  | cons kv rest ih =>
    obtain ⟨k, v⟩ := kv
    by_cases hk : k = tag
    · subst hk
      by_cases hs : k = s
      · subst hs
        simp [bump, lookupTag]
      · have hs2 : s ≠ k := fun h => hs h.symm
        simp [bump, lookupTag, hs, hs2]
    · by_cases hs : k = s
      · subst hs
        have hk2 : k ≠ tag := hk
        simp [bump, lookupTag, hk, hk2]
      · simp [bump, lookupTag, hk, hs, ih]

/-- Folding a tag list over `bump` adds, at each key, the number of
occurrences of that key in the tag list. -/
theorem lookupTag_foldl_bump (tags : List Str) (acc : List (Str × Nat)) (s : Str) :
    (lookupTag s (tags.foldl bump acc)).getD 0 =
      (lookupTag s acc).getD 0 + tags.countP (fun x => decide (x = s)) := by
  induction tags generalizing acc with
  | nil => simp
  | cons t ts ih =>
    rw [List.foldl_cons, ih (bump acc t), lookupTag_bump, List.countP_cons]
    by_cases h : s = t
    · subst h
      simp
      omega
    · have h2 : t ≠ s := fun hh => h hh.symm
      simp [h, h2]

/-- Folding a tag list over `bump` makes a key present exactly when it was
present before or occurs in the tag list. -/
theorem lookupTag_foldl_bump_isSome (tags : List Str) (acc : List (Str × Nat)) (s : Str) :
    (lookupTag s (tags.foldl bump acc)).isSome = true ↔
      (lookupTag s acc).isSome = true ∨ s ∈ tags := by
  induction tags generalizing acc with
  | nil => simp
  | cons t ts ih =>
    rw [List.foldl_cons, ih (bump acc t), lookupTag_bump]
    by_cases h : s = t
    · simp [h]
    · simp [h]

/-- Counting occurrences in a duplicate-free list is a membership indicator. -/
theorem countP_eq_ite_of_nodup (l : List Str) (h : l.Nodup) (s : Str) :
    l.countP (fun x => decide (x = s)) = if s ∈ l then 1 else 0 := by
  induction l with
  | nil => simp
  | cons a l ih =>
    rw [List.nodup_cons] at h
    rw [List.countP_cons, ih h.2]
    by_cases ha : a = s
    · subst ha
      simp [h.1]
    · have hsa : s ≠ a := fun hh => ha hh.symm
      by_cases hl : s ∈ l
      · simp [ha, hsa, hl]
      · simp [ha, hsa, hl]

/-- With duplicate-free per-item tags, summing each item's occurrence count
of a tag counts the items carrying that tag. -/
theorem sum_map_countP (todos : List Todo) (s : Str)
    (hnd : ∀ t ∈ todos, t.tags.Nodup) :
    (todos.map (fun t => t.tags.countP (fun x => decide (x = s)))).sum =
      todos.countP (fun t => decide (s ∈ t.tags)) := by
  induction todos with
  | nil => simp
  | cons a l ih =>
    rw [List.map_cons, List.sum_cons, List.countP_cons,
      ih (fun t ht => hnd t (List.mem_cons_of_mem a ht)),
      countP_eq_ite_of_nodup a.tags (hnd a (List.mem_cons_self a l)) s]
    by_cases h : s ∈ a.tags
    · simp [h]
      omega
    · simp [h]

/-- The `allTags` fold, relative to an arbitrary accumulator: each key reads
its prior value plus the total number of occurrences across the items. -/
theorem allTags_count (todos : List Todo) (acc : List (Str × Nat)) (s : Str) :
    (lookupTag s (todos.foldl (fun acc todo => todo.tags.foldl bump acc) acc)).getD 0 =
      (lookupTag s acc).getD 0 +
        (todos.map (fun t => t.tags.countP (fun x => decide (x = s)))).sum := by
  induction todos generalizing acc with
  | nil => simp
  | cons a l ih =>
    rw [List.foldl_cons, ih (a.tags.foldl bump acc), lookupTag_foldl_bump,
      List.map_cons, List.sum_cons]
    omega

/-- The `allTags` fold, key presence: a key is present exactly when it was
present before or some item carries it. -/
theorem allTags_isSome (todos : List Todo) (acc : List (Str × Nat)) (s : Str) :
    (lookupTag s (todos.foldl (fun acc todo => todo.tags.foldl bump acc) acc)).isSome = true ↔
      (lookupTag s acc).isSome = true ∨ ∃ t ∈ todos, s ∈ t.tags := by
  induction todos generalizing acc with
  | nil => simp
  | cons a l ih =>
    rw [List.foldl_cons, ih (a.tags.foldl bump acc), lookupTag_foldl_bump_isSome]
    have hmem : (∃ t ∈ a :: l, s ∈ t.tags) ↔ s ∈ a.tags ∨ ∃ t ∈ l, s ∈ t.tags := by
      simp
    rw [hmem]
    tauto

/-- C7: `allTags` maps each tag to the number of items carrying it (given the
no-duplicate-tags invariant on items), and its keys are exactly the tags
present on at least one item.  `allTags` reads only the collection — its
definition does not take the query state. -/
theorem tagCounts_correct (todos : List Todo)
    (hnd : ∀ t ∈ todos, t.tags.Nodup) (tag : Str) :
    (lookupTag tag (allTags todos)).getD 0 =
      todos.countP (fun t => decide (tag ∈ t.tags)) ∧
    ((lookupTag tag (allTags todos)).isSome = true ↔ ∃ t ∈ todos, tag ∈ t.tags) := by
  constructor
  · rw [allTags, allTags_count, sum_map_countP todos tag hnd]
    simp [lookupTag]
  · rw [allTags, allTags_isSome]
    simp [lookupTag]

/-- Witness for C7: on the sample collection the count recorded for tag
"pet" equals the number of items carrying it. -/
theorem tagCounts_correct_witness :
    (lookupTag ['p','e','t'] (allTags [sampleTodoA, sampleTodoB])).getD 0 =
      List.countP (fun t => decide (['p','e','t'] ∈ t.tags)) [sampleTodoA, sampleTodoB] :=
  (tagCounts_correct [sampleTodoA, sampleTodoB] (by decide) ['p','e','t']).1

end TodoApp
